import Mathlib

/-!
Shallow embedding of `src/models.py` (SO(3)-equivariant GNN model assembly:
`NBodyModel` and `QM9Model`) and verification of the frozen claims about it.

The external layer library (`modules.attn_modules`) and the DGL pooling layers
are not part of the repository excerpt; they are modelled as opaque parameters
(an `Interp` record of interpretation functions) applied to the constructor
arguments that `models.py` passes, which are embedded faithfully.  Python float
arithmetic is modelled over `ℚ`; tensors are modelled as nested lists of
rationals; Python exceptions are modelled with `Except PyError`.
-/

/-- Python exceptions that the embedded code can raise. -/
inductive PyError where
  | assertionError (msg : String)
  | zeroDivisionError
  | attributeError (name : String)
deriving DecidableEq, Repr

/-- A channel-multiplicity dictionary `{'vec': _, 'scalar': _}` as used
throughout `models.py`. -/
structure Channels where
  vec : Int
  scalar : Int
deriving DecidableEq, Repr

/-- The `hidden` sub-dictionary of an MLP architecture dictionary
(`dim`, `init`, `act`, `bias`, `norm`, `drop`).  `act` records the
activation's name (`nn.ReLU()` becomes `some "ReLU"`). -/
structure HiddenCfg where
  dim : Int
  init : String
  act : Option String
  bias : Bool
  norm : String
  drop : ℚ
deriving DecidableEq, Repr

/-- The `final` sub-dictionary of an MLP architecture dictionary. -/
structure FinalCfg where
  init : String
  bias : Bool
  act : Option String
  drop : ℚ
deriving DecidableEq, Repr

/-- An MLP architecture dictionary (`layer`, `in_LN`, `hidden`, `final`);
an empty `hidden` dictionary (`{}`) is modelled as `none`. -/
structure MLPArchi where
  layer : Int
  in_LN : Bool
  hidden : Option HiddenCfg
  final : FinalCfg
deriving DecidableEq, Repr

/-- Dictionary `embedding_mlp` from `models.py`. -/
def embedding_mlp : MLPArchi :=
  { layer := 1, in_LN := false, hidden := none,
    final := { init := "lecun", bias := true, act := none, drop := 0 } }

/-- Dictionary `query_mlp` from `models.py`. -/
def query_mlp : MLPArchi :=
  { layer := 2, in_LN := false,
    hidden := some { dim := 128, init := "relu", act := some "ReLU",
                     bias := true, norm := "LN", drop := 0 },
    final := { init := "lecun", bias := true, act := none, drop := 0 } }

/-- Dictionary `key_mlp` from `models.py`. -/
def key_mlp : MLPArchi :=
  { layer := 2, in_LN := false,
    hidden := some { dim := 128, init := "relu", act := some "ReLU",
                     bias := true, norm := "LN", drop := 0 },
    final := { init := "lecun", bias := true, act := none, drop := 0 } }

/-- Dictionary `value_mlp` from `models.py`. -/
def value_mlp : MLPArchi :=
  { layer := 2, in_LN := false,
    hidden := some { dim := 128, init := "relu", act := some "ReLU",
                     bias := true, norm := "LN", drop := 0 },
    final := { init := "lecun", bias := true, act := none, drop := 0 } }

/-- Dictionary `skip_mlp` from `models.py`. -/
def skip_mlp : MLPArchi :=
  { layer := 2, in_LN := false,
    hidden := some { dim := 128, init := "relu", act := some "ReLU",
                     bias := true, norm := "LN", drop := 0 },
    final := { init := "lecun", bias := true, act := none, drop := 0 } }

/-- Dictionary `out_node_graph_mlp` from `models.py`. -/
def out_node_graph_mlp : MLPArchi :=
  { layer := 2, in_LN := false,
    hidden := some { dim := 128, init := "relu", act := some "ReLU",
                     bias := true, norm := "LN", drop := 0 },
    final := { init := "lecun", bias := true, act := none, drop := 0 } }

/-- The three DGL pooling layers imported by `models.py`. -/
inductive PoolingLayer where
  | MaxPooling
  | AvgPooling
  | SumPooling
deriving DecidableEq, Repr

/-- A module from `modules.attn_modules` as constructed in `models.py`,
recorded with the constructor arguments passed at each call site.
`recur_drop` is `none` at call sites that do not pass it (the library
default then applies). -/
inductive SMPModule where
  | SO3EquivariantAttenRes (m_in m_qk m_v m_out : Channels) (edge_dim : Int)
      (heads : Int) (recurrent : Bool) (recur_drop : Option ℚ)
      (skip_type : String) (input_LN : Bool)
      (q_archi k_archi v_archi out_archi : MLPArchi)
  | NormBias (m_in : Channels) (shifted : String) (init : String)
  | SO3LayerNorm (m : Channels)
deriving DecidableEq, Repr

/-- An `SO3EquivariantVector` instance, recorded with its constructor
arguments; `input_LN` is `none` at call sites that do not pass it. -/
structure VectorModule where
  m_in_vec : Int
  m_out_vec : Int
  m_in_s : Int
  m_out_s : Int
  input_LN : Option Bool
  net_archi : MLPArchi
deriving DecidableEq, Repr

/-- A `build_MLP_network` instance, recorded with its constructor arguments. -/
structure MLPModule where
  in_dim : Int
  out_dim : Int
  archi : MLPArchi
deriving DecidableEq, Repr

/-- An `nn.Dropout` instance with its probability. -/
structure DropoutModule where
  p : ℚ
deriving DecidableEq, Repr

/-! ## Tensors

Tensors are nested lists of rationals.  The operations below model exactly
the tensor expressions occurring in `models.py`:
slicing `t[:, 0, :]`, the in-place update `t[:, 5, :] = t[:, 5, :] / 9.`,
elementwise `+`, and the last-axis index `t[..., 0]`. -/

/-- A tensor: a rational scalar or an array of tensors. -/
inductive Tensor where
  | scalar (x : ℚ)
  | arr (xs : List Tensor)
deriving Repr

mutual

/-- Boolean equality of tensors. -/
def Tensor.beq : Tensor → Tensor → Bool
  | .scalar a, .scalar b => a == b
  | .arr xs, .arr ys => Tensor.beqList xs ys
  | _, _ => false

/-- Boolean equality of lists of tensors. -/
def Tensor.beqList : List Tensor → List Tensor → Bool
  | [], [] => true
  | x :: xs, y :: ys => Tensor.beq x y && Tensor.beqList xs ys
  | _, _ => false

end

mutual

/-- Equality test `Tensor.beq` decides equality. -/
def Tensor.beqIff : ∀ a b : Tensor, Tensor.beq a b = true ↔ a = b
  | .scalar a, .scalar b => by simp [Tensor.beq]
  | .scalar _, .arr _ => by simp [Tensor.beq]
  | .arr _, .scalar _ => by simp [Tensor.beq]
  | .arr xs, .arr ys => by
    rw [Tensor.beq, Tensor.beqListIff xs ys]
    exact ⟨fun h => by rw [h], fun h => by injection h⟩

/-- Equality test `Tensor.beqList` decides equality of lists. -/
def Tensor.beqListIff : ∀ xs ys : List Tensor, Tensor.beqList xs ys = true ↔ xs = ys
  | [], [] => by simp [Tensor.beqList]
  | [], _ :: _ => by simp [Tensor.beqList]
  | _ :: _, [] => by simp [Tensor.beqList]
  | x :: xs, y :: ys => by
    rw [Tensor.beqList, Bool.and_eq_true, Tensor.beqIff x y, Tensor.beqListIff xs ys]
    simp

end

instance : DecidableEq Tensor := fun a b =>
  decidable_of_iff (Tensor.beq a b = true) (Tensor.beqIff a b)

mutual

/-- Elementwise division of every entry of a tensor by `q`
(the broadcast `t / 9.`). -/
def Tensor.tdiv (q : ℚ) : Tensor → Tensor
  | .scalar x => .scalar (x / q)
  | .arr xs => .arr (Tensor.tdivList q xs)

/-- Function `Tensor.tdiv` mapped over a list of tensors. -/
def Tensor.tdivList (q : ℚ) : List Tensor → List Tensor
  | [] => []
  | t :: ts => Tensor.tdiv q t :: Tensor.tdivList q ts

end

mutual

/-- Predicate `hasRank t n` holds when `t` is a well-formed tensor of rank `n`
with every axis nonempty. -/
def Tensor.hasRank : Tensor → Nat → Bool
  | .scalar _, 0 => true
  | .arr xs, n + 1 => !xs.isEmpty && Tensor.hasRankList xs n
  | _, _ => false

/-- Predicate `Tensor.hasRank` over a list of tensors. -/
def Tensor.hasRankList : List Tensor → Nat → Bool
  | [], _ => true
  | t :: ts, n => Tensor.hasRank t n && Tensor.hasRankList ts n

end

/-- The entry of a tensor at a multi-index. -/
def Tensor.entry : Tensor → List Nat → Option ℚ
  | .scalar x, [] => some x
  | .arr xs, i :: is =>
    match xs.get? i with
    | some t => Tensor.entry t is
    | none => none
  | _, _ => none

/-- Map a partial function over a list, failing if it fails anywhere
(the effect of a Python loop or broadcast operation that can raise). -/
def mapMo (g : α → Option β) : List α → Option (List β)
  | [] => some []
  | a :: as =>
    match g a, mapMo g as with
    | some b, some bs => some (b :: bs)
    | _, _ => none

/-- Select index 0 on axis 1 of a row of rank at least 2: the per-row step of
`t[:, 0, :]`.  The selected element must itself be indexable by the trailing
full slice, hence an array. -/
def Tensor.getMid0 : Tensor → Option Tensor
  | .arr (Tensor.arr ws :: _) => some (Tensor.arr ws)
  | _ => none

/-- The slice `t[:, 0, :]` (`NBodyModel.forward` line 175): keep axis 0,
take index 0 on axis 1, keep the rest.  Fails (IndexError) when a row is
empty or of too small a rank. -/
def Tensor.sliceMid0 : Tensor → Option Tensor
  | .arr xs => (mapMo Tensor.getMid0 xs).map Tensor.arr
  | .scalar _ => none

/-- Per-row step of `t[:, i, :] = t[:, i, :] / q`: divide the element at
index `i` of the row by `q`, elementwise, in place. -/
def Tensor.divRow (i : Nat) (q : ℚ) : Tensor → Option Tensor
  | .arr zs =>
    match zs.get? i with
    | some z => some (Tensor.arr (zs.set i (Tensor.tdiv q z)))
    | none => none
  | .scalar _ => none

/-- The in-place update `t[:, i, :] = t[:, i, :] / q`
(`QM9Model.forward` line 263 with `i = 5`, `q = 9`). -/
def Tensor.divChannel (i : Nat) (q : ℚ) : Tensor → Option Tensor
  | .arr xs => (mapMo (Tensor.divRow i q) xs).map Tensor.arr
  | .scalar _ => none

mutual

/-- Elementwise tensor addition (no broadcasting): shapes must agree. -/
def Tensor.tadd : Tensor → Tensor → Option Tensor
  | .scalar a, .scalar b => some (.scalar (a + b))
  | .arr xs, .arr ys => (Tensor.taddList xs ys).map Tensor.arr
  | _, _ => none

/-- Function `Tensor.tadd` zipped over two lists of equal length. -/
def Tensor.taddList : List Tensor → List Tensor → Option (List Tensor)
  | [], [] => some []
  | x :: xs, y :: ys =>
    match Tensor.tadd x y, Tensor.taddList xs ys with
    | some z, some zs => some (z :: zs)
    | _, _ => none
  | _, _ => none

end

mutual

/-- The last-axis index `t[..., 0]` (`QM9Model.forward` line 273):
take index 0 on the innermost axis. -/
def Tensor.lastIdx0 : Tensor → Option Tensor
  | .scalar _ => none
  | .arr (Tensor.scalar x :: _) => some (Tensor.scalar x)
  | .arr xs => (Tensor.lastIdx0List xs).map Tensor.arr

/-- Function `Tensor.lastIdx0` mapped over a list, failing if it fails anywhere. -/
def Tensor.lastIdx0List : List Tensor → Option (List Tensor)
  | [] => some []
  | t :: ts =>
    match Tensor.lastIdx0 t, Tensor.lastIdx0List ts with
    | some u, some us => some (u :: us)
    | _, _ => none

end

/-! ## Graphs and feature dictionaries

A DGL graph is modelled by its node-data dictionary `ndata`; dictionaries
are insertion-ordered association lists, as in Python. -/

/-- A feature dictionary (`features` in the forward methods). -/
def Features := List (String × Tensor)

/-- Dictionary lookup (`d[k]`); `none` models a KeyError. -/
def lookupF : List (String × Tensor) → String → Option Tensor
  | [], _ => none
  | (k, v) :: rest, key => if k = key then some v else lookupF rest key

/-- Dictionary assignment (`d[k] = v`): replace in place, or append. -/
def updateF : List (String × Tensor) → String → Tensor → List (String × Tensor)
  | [], key, v => [(key, v)]
  | (k, w) :: rest, key, v =>
    if k = key then (key, v) :: rest else (k, w) :: updateF rest key v

/-- A DGL graph, reduced to the node-data dictionary `ndata` that
`models.py` reads and writes. -/
structure Graph where
  ndata : List (String × Tensor)
deriving DecidableEq, Repr

/-! ## NBodyModel -/

/-- The Lean image of an `NBodyModel` instance: the attributes assigned by
`__init__` and `_build_network`.  `self.hidden_channels` is assigned twice
in `__init__` (first the integer, then the dictionary built from it); the
field holds its final value. -/
structure NBodyModel where
  num_layers : Int
  hidden_channels : Channels
  input_channels : Channels
  output_channels : Channels
  edge_dim : Int
  skip_type : String
  input_LN : Bool
  recurrent : Bool
  GBlock : List SMPModule
deriving DecidableEq, Repr

/-- The loop of `NBodyModel._build_network` followed by the append of the
final attention layer.  Arguments `m_hidden`, `m_out`, `edge_dim`, `skip`
are loop-invariant attribute reads; `selfLN` and `selfRec` are
`self.input_LN` and `self.recurrent` (the flag values installed after the
first iteration); `m_in`, `iLN`, `rec` are the loop-carried `m_in`,
`inputLN_flag`, `recurrent_flag`. -/
def nbodyGBlockAux (m_hidden m_out : Channels) (edge_dim : Int) (skip : String)
    (selfLN selfRec : Bool) : Nat → Channels → Bool → Bool → List SMPModule
  | 0, m_in, iLN, _ =>
    [.SO3EquivariantAttenRes m_in m_out m_out m_out edge_dim 1 false (some 0)
      skip iLN query_mlp key_mlp value_mlp skip_mlp]
  | k + 1, m_in, iLN, rec =>
    .SO3EquivariantAttenRes m_in m_hidden m_hidden m_hidden edge_dim 1 rec (some 0)
      skip iLN query_mlp key_mlp value_mlp skip_mlp
    :: .NormBias m_hidden "LN" "rand"
    :: nbodyGBlockAux m_hidden m_out edge_dim skip selfLN selfRec k m_hidden selfLN selfRec

/-- Constructor `NBodyModel.__init__` together with `_build_network` (Python defaults:
`num_layers=3`, `num_hidden_channels=3`).  A negative `num_layers` makes
Python's `range` empty, hence `Int.toNat`. -/
def NBodyModel.init (num_layers : Int) (num_hidden_channels : Int) :
    NBodyModel :=
  let hidden : Channels := { vec := num_hidden_channels, scalar := num_hidden_channels }
  { num_layers := num_layers
    hidden_channels := hidden
    input_channels := { vec := 1, scalar := 0 }
    output_channels := { vec := 2, scalar := 0 }
    edge_dim := 1
    skip_type := "cat"
    input_LN := false
    recurrent := true
    GBlock := nbodyGBlockAux hidden { vec := 2, scalar := 0 } 1 "cat" false true
      num_layers.toNat { vec := 1, scalar := 0 } false false }

/-- Constructor `NBodyModel.__init__` seen as a fallible Python call: its body consists
of attribute assignments, dictionary construction and the `_build_network`
loop, none of which can raise, so it always returns a model. -/
def NBodyModel.initE (num_layers num_hidden_channels : Int) :
    Except PyError NBodyModel :=
  .ok (NBodyModel.init num_layers num_hidden_channels)

/-! ## QM9Model -/

/-- The Lean image of a `QM9Model` instance: the attributes assigned by
`__init__` and `_build_net`.  `pooling_layer` is `Option`al because the
`if/elif` chain at lines 243-248 has no `else` branch, so for a pooling
string outside the three cases the attribute would never be assigned. -/
structure QM9Model where
  num_layers : Int
  my_hidden_dim : Int
  input_channels : Channels
  hidden_channels : Channels
  qk_channels : Channels
  v_channels : Channels
  output_channels : Channels
  edge_dim : Int
  heads : Int
  pooling : String
  recurrent : Bool
  skip_type : String
  input_LN : Bool
  embedding : VectorModule
  edge_embedding : MLPModule
  GBlock : List SMPModule
  node_mapping : VectorModule
  pooling_layer : Option PoolingLayer
  res_drop : DropoutModule
  graph_mapping : MLPModule
deriving DecidableEq, Repr

/-- The allowed pooling strings of the assertion at line 194. -/
def poolingTypes : List String := ["max", "avg", "sum"]

/-- The `if/elif` chain of `QM9Model._build_net` selecting the pooling
layer (lines 243-248); no `else` branch. -/
def selectPooling (pooling : String) : Option PoolingLayer :=
  if pooling = "max" then some .MaxPooling
  else if pooling = "avg" then some .AvgPooling
  else if pooling = "sum" then some .SumPooling
  else none

/-- The loop of `QM9Model._build_net` (lines 230-237): `num_layers`
iterations, each appending an `SO3EquivariantAttenRes` and a `NormBias`. -/
def qm9GBlockAux (m_hidden m_qk m_v : Channels) (edge_dim heads : Int)
    (recurrent : Bool) (skip : String) (iLN : Bool) : Nat → List SMPModule
  | 0 => []
  | k + 1 =>
    .SO3EquivariantAttenRes m_hidden m_qk m_v m_hidden edge_dim heads recurrent none
      skip iLN query_mlp key_mlp value_mlp skip_mlp
    :: .NormBias m_hidden "BN" "zero"
    :: qm9GBlockAux m_hidden m_qk m_v edge_dim heads recurrent skip iLN k

/-- Constructor `QM9Model.__init__` together with `_build_net`.  The assertion at line
194 raises unless `pooling` is one of `poolingTypes`; after it, the only
operation that can raise is the integer floor division
`self.my_hidden_dim // div` when `div = 0`.  Python defaults:
`pooling='max'`, `heads=1`, `div=1`, `hidden_dim=128`. -/
def QM9Model.init (num_layers : Int) (pooling : String)
    (heads : Int) (div : Int) (hidden_dim : Int) :
    Except PyError QM9Model :=
  if pooling ∈ poolingTypes then
    if div = 0 then .error .zeroDivisionError
    else
      let m_hidden : Channels := { vec := 0, scalar := hidden_dim }
      let m_qk : Channels := { vec := 0, scalar := Int.fdiv hidden_dim div }
      .ok { num_layers := num_layers
            my_hidden_dim := hidden_dim
            input_channels := { vec := 0, scalar := 6 }
            hidden_channels := m_hidden
            qk_channels := m_qk
            v_channels := m_qk
            output_channels := { vec := 0, scalar := hidden_dim }
            edge_dim := 5
            heads := heads
            pooling := pooling
            recurrent := true
            skip_type := "gate"
            input_LN := false
            embedding := { m_in_vec := 0, m_out_vec := 0, m_in_s := 6,
                           m_out_s := hidden_dim, input_LN := none,
                           net_archi := embedding_mlp }
            edge_embedding := { in_dim := 5, out_dim := 8, archi := embedding_mlp }
            GBlock := .SO3LayerNorm m_hidden ::
              qm9GBlockAux m_hidden m_qk m_qk 5 heads true "gate" false num_layers.toNat
            node_mapping := { m_in_vec := 0, m_out_vec := 0, m_in_s := hidden_dim,
                              m_out_s := hidden_dim, input_LN := some false,
                              net_archi := out_node_graph_mlp }
            pooling_layer := selectPooling pooling
            res_drop := { p := 1 / 10 }
            graph_mapping := { in_dim := hidden_dim, out_dim := 1,
                               archi := out_node_graph_mlp } }
  else .error (.assertionError ("Unresolved pooling type " ++ pooling))

/-- The attribute names assigned on a `QM9Model` instance: `__init__`
lines 195-207 and `_build_net` lines 223-253.  Every instance reaching
the end of `__init__` carries exactly these attributes; `nn.Module`
raises `AttributeError` for any other name. -/
def QM9Model.assignedAttrs : List String :=
  ["num_layers", "my_hidden_dim", "input_channels", "hidden_channels",
   "qk_channels", "v_channels", "output_channels", "edge_dim", "heads",
   "pooling", "recurrent", "skip_type", "input_LN", "embedding",
   "edge_embedding", "GBlock", "node_mapping", "pooling_layer",
   "res_drop", "graph_mapping"]

/-- Attribute access `self.<name>` on a `QM9Model` instance, as far as
success or `AttributeError` is concerned. -/
def QM9Model.getattr (_M : QM9Model) (name : String) : Except PyError Unit :=
  if name ∈ QM9Model.assignedAttrs then .ok () else .error (.attributeError name)

/-- Method `QM9Model.__repr__` (lines 211-214), modelled up to its attribute
accesses: the f-strings read `self.num_layers`, `self.hidden_channels`,
`self.attention_channels`, `self.heads`, `self.pooling`,
`self.net_hidden_dim` in that order, and the first missing attribute
raises; the formatted string itself is irrelevant to the claims and is
returned as a constant. -/
def QM9Model.reprFn (M : QM9Model) : Except PyError String := do
  M.getattr "num_layers"
  M.getattr "hidden_channels"
  M.getattr "attention_channels"
  M.getattr "heads"
  M.getattr "pooling"
  M.getattr "net_hidden_dim"
  return "SimpleSO3Transformer(...)"

/-! ## Forward passes

The layers called inside `forward` are external (`modules.attn_modules`,
DGL pooling, `nn.Dropout`); their behaviour is a parameter.  An `Interp`
interprets each external module, given the constructor arguments recorded
for it; `models.py` itself only threads data through them. -/

/-- Interpretations of the external modules used by the forward passes. -/
structure Interp where
  layer : SMPModule → Features → Graph → Features
  vector : VectorModule → Features → Features
  mlp : MLPModule → Tensor → Tensor
  drop : DropoutModule → Tensor → Tensor
  pool : PoolingLayer → Graph → Tensor → Tensor

/-- The loop `for layer in self.GBlock: features = layer(features, G=G)`. -/
def runGBlock (I : Interp) (G : Graph) (block : List SMPModule)
    (features : Features) : Features :=
  block.foldl (fun fe l => I.layer l fe G) features

/-- Method `NBodyModel.forward` (lines 169-178).  Returns the result tensor and
the graph as mutated by the slice assignment at line 175; `none` models a
raised exception (missing `ndata` key, invalid slice, missing final
`'vec'` entry). -/
def NBodyModel.forward (I : Interp) (M : NBodyModel) (G : Graph) :
    Option (Tensor × Graph) := do
  let v ← lookupF G.ndata "v"
  let x ← lookupF G.ndata "x"
  let x1 ← Tensor.sliceMid0 x
  let G1 : Graph := { ndata := updateF G.ndata "x" x1 }
  let feats := runGBlock I G1 M.GBlock [("vec", v)]
  let out ← lookupF feats "vec"
  some (out, G1)

/-- Method `QM9Model.forward` (lines 255-275).  `features['scalar']` aliases
`G.ndata['f']`, so the in-place channel-5 division at line 263 mutates
the graph; the mutated tensor is both left in `G.ndata['f']` and fed to
the embedding.  Returns the result tensor and the mutated graph; `none`
models a raised exception. -/
def QM9Model.forward (I : Interp) (M : QM9Model) (G : Graph) :
    Option (Tensor × Graph) := do
  let f ← lookupF G.ndata "f"
  let f1 ← Tensor.divChannel 5 9 f
  let G1 : Graph := { ndata := updateF G.ndata "f" f1 }
  let featsL := runGBlock I G1 M.GBlock (I.vector M.embedding [("scalar", f1)])
  let features1 ← lookupF (I.vector M.node_mapping featsL) "scalar"
  let s ← lookupF featsL "scalar"
  let summed ← Tensor.tadd features1 (I.drop M.res_drop s)
  let idx ← Tensor.lastIdx0 summed
  let pl ← M.pooling_layer
  some (I.mlp M.graph_mapping (I.pool pl G1 idx), G1)

/-! ## Shape predicates on `GBlock` -/

/-- Is the module an `SO3EquivariantAttenRes`? -/
def isAttenRes : SMPModule → Bool
  | .SO3EquivariantAttenRes _ _ _ _ _ _ _ _ _ _ _ _ _ _ => true
  | _ => false

/-- Is the module a `NormBias`? -/
def isNormBias : SMPModule → Bool
  | .NormBias _ _ _ => true
  | _ => false

/-- Is the module an `SO3LayerNorm`? -/
def isLayerNorm : SMPModule → Bool
  | .SO3LayerNorm _ => true
  | _ => false

/-- The list is an alternation `AttenRes, NormBias, AttenRes, NormBias,
..., AttenRes`: pairs of attention and normalization modules closed by a
final attention module. -/
def nbodyShape : List SMPModule → Bool
  | [a] => isAttenRes a
  | a :: b :: rest => isAttenRes a && isNormBias b && nbodyShape rest
  | [] => false

/-- The list consists of consecutive pairs `AttenRes, NormBias`. -/
def pairShape : List SMPModule → Bool
  | [] => true
  | a :: b :: rest => isAttenRes a && isNormBias b && pairShape rest
  | _ => false

/-! ## Concrete sample data

Small concrete interpretations, graphs and models used to evaluate the
embedded code on closed inputs. -/

/-- The interpretation in which every external module acts as the
identity on its input. -/
def idInterp : Interp :=
  { layer := fun _ fe _ => fe
    vector := fun _ fe => fe
    mlp := fun _ t => t
    drop := fun _ t => t
    pool := fun _ _ t => t }

/-- A sample rank-3 tensor of shape 1 by 2 by 2. -/
def xSample : Tensor :=
  .arr [.arr [.arr [.scalar 1, .scalar 2], .arr [.scalar 3, .scalar 4]]]

/-- A sample velocity tensor. -/
def vSample : Tensor := .arr [.arr [.scalar 5]]

/-- A sample graph for the N-body model: node data `'v'` and `'x'`. -/
def gSampleN : Graph := { ndata := [("v", vSample), ("x", xSample)] }

/-- The N-body model with zero hidden layers. -/
def nbodySample : NBodyModel := NBodyModel.init 0 3

/-- A sample rank-3 scalar-feature tensor of shape 1 by 6 by 1 (one node,
six channels): the channel at index 5 holds the value 6. -/
def fSample : Tensor :=
  .arr [.arr [.arr [.scalar 1], .arr [.scalar 2], .arr [.scalar 3],
              .arr [.scalar 4], .arr [.scalar 5], .arr [.scalar 6]]]

/-- A sample graph for the QM9 model: node data `'f'`. -/
def gSampleQ : Graph := { ndata := [("f", fSample)] }

/-- The QM9 model built with zero layers and max pooling (other arguments
at their Python defaults), extracted from the successful construction. -/
def qm9Sample : QM9Model :=
  match QM9Model.init 0 "max" 1 1 128 with
  | .ok M => M
  | .error _ =>
    { num_layers := 0, my_hidden_dim := 0
      input_channels := { vec := 0, scalar := 0 }
      hidden_channels := { vec := 0, scalar := 0 }
      qk_channels := { vec := 0, scalar := 0 }
      v_channels := { vec := 0, scalar := 0 }
      output_channels := { vec := 0, scalar := 0 }
      edge_dim := 0, heads := 0, pooling := "", recurrent := false
      skip_type := "", input_LN := false
      embedding := { m_in_vec := 0, m_out_vec := 0, m_in_s := 0, m_out_s := 0,
                     input_LN := none, net_archi := embedding_mlp }
      edge_embedding := { in_dim := 0, out_dim := 0, archi := embedding_mlp }
      GBlock := []
      node_mapping := { m_in_vec := 0, m_out_vec := 0, m_in_s := 0,
                        m_out_s := 0, input_LN := none, net_archi := embedding_mlp }
      pooling_layer := none
      res_drop := { p := 0 }
      graph_mapping := { in_dim := 0, out_dim := 0, archi := embedding_mlp } }

/-- A sample attention module. -/
def attenSample : SMPModule :=
  .SO3EquivariantAttenRes { vec := 1, scalar := 0 } { vec := 2, scalar := 0 }
    { vec := 2, scalar := 0 } { vec := 2, scalar := 0 } 1 1 false (some 0)
    "cat" false query_mlp key_mlp value_mlp skip_mlp

/-- A sample normalization module. -/
def normSample : SMPModule := .NormBias { vec := 3, scalar := 3 } "LN" "rand"

/-- The slice `xSample[:, 0, :]`. -/
def xSampleSliced : Tensor := .arr [.arr [.scalar 1, .scalar 2]]

/-- Graph `gSampleN` after `NBodyModel.forward` overwrote its `'x'` entry. -/
def gSampleN1 : Graph := { ndata := [("v", vSample), ("x", xSampleSliced)] }

/-- Tensor `fSample` with channel 5 divided by 9. -/
def fSampleDiv : Tensor :=
  .arr [.arr [.arr [.scalar 1], .arr [.scalar 2], .arr [.scalar 3],
              .arr [.scalar 4], .arr [.scalar 5], .arr [.scalar (2 / 3)]]]

/-- Tensor `fSample` with channel 5 divided by 81. -/
def fSampleDiv2 : Tensor :=
  .arr [.arr [.arr [.scalar 1], .arr [.scalar 2], .arr [.scalar 3],
              .arr [.scalar 4], .arr [.scalar 5], .arr [.scalar (2 / 27)]]]

/-- Graph `gSampleQ` after one `QM9Model.forward` call. -/
def gSampleQ1 : Graph := { ndata := [("f", fSampleDiv)] }

/-- Graph `gSampleQ` after two `QM9Model.forward` calls. -/
def gSampleQ2 : Graph := { ndata := [("f", fSampleDiv2)] }

/-- The output tensor of `QM9Model.forward idInterp qm9Sample gSampleQ`. -/
def qm9OutSample : Tensor :=
  .arr [.arr [.scalar 2, .scalar 4, .scalar 6, .scalar 8, .scalar 10,
              .scalar (4 / 3)]]

/-- The output tensor of the second forward call, on the mutated graph. -/
def qm9OutSample2 : Tensor :=
  .arr [.arr [.scalar 2, .scalar 4, .scalar 6, .scalar 8, .scalar 10,
              .scalar (4 / 27)]]

/-! ## Helper lemmas -/

theorem lookupF_updateF_self (l : List (String × Tensor)) (key : String) (v : Tensor) :
    lookupF (updateF l key v) key = some v := by
  induction l with
  | nil => simp [updateF, lookupF]
  | cons p rest ih =>
    obtain ⟨k, w⟩ := p
    by_cases h : k = key
    · subst h; simp [updateF, lookupF]
    · simp [updateF, lookupF, h, ih]

theorem mapMo_length {g : α → Option β} :
    ∀ {l : List α} {l' : List β}, mapMo g l = some l' → l'.length = l.length := by
  intro l
  induction l with
  | nil => intro l' h; simp [mapMo] at h; simp [← h]
  | cons a as ih =>
    intro l' h
    rw [mapMo] at h
    cases hga : g a with
    | none => rw [hga] at h; simp at h
    | some b =>
      rw [hga] at h
      cases hmas : mapMo g as with
      | none => rw [hmas] at h; simp at h
      | some bs =>
        rw [hmas] at h
        simp at h
        subst h
        simp [ih hmas]

theorem mapMo_get? {g : α → Option β} :
    ∀ {l : List α} {l' : List β}, mapMo g l = some l' →
      ∀ {j : Nat} {a : α}, l.get? j = some a →
        ∃ b, l'.get? j = some b ∧ g a = some b := by
  intro l
  induction l with
  | nil => intro l' _ j a hj; simp at hj
  | cons a0 as ih =>
    intro l' h j a hj
    rw [mapMo] at h
    cases hga : g a0 with
    | none => rw [hga] at h; simp at h
    | some b0 =>
      rw [hga] at h
      cases hmas : mapMo g as with
      | none => rw [hmas] at h; simp at h
      | some bs =>
        rw [hmas] at h
        simp at h
        subst h
        cases j with
        | zero =>
          rw [List.get?_cons_zero] at hj
          injection hj with hj
          subst hj
          exact ⟨b0, by simp, hga⟩
        | succ j' =>
          rw [List.get?_cons_succ] at hj
          rw [List.get?_cons_succ]
          exact ih hmas hj

/-- Pointwise composition under `mapMo`: if `g` then `h` agrees with `k`
elementwise, the same holds for the mapped lists. -/
theorem mapMo_comp {g h k : α → Option α}
    (hcomp : ∀ a b, g a = some b → h b = k a) :
    ∀ {l l' : List α}, mapMo g l = some l' → mapMo h l' = mapMo k l := by
  intro l
  induction l with
  | nil => intro l' hl; simp [mapMo] at hl; subst hl; simp [mapMo]
  | cons a as ih =>
    intro l' hl
    rw [mapMo] at hl
    cases hga : g a with
    | none => rw [hga] at hl; simp at hl
    | some b =>
      rw [hga] at hl
      cases hmas : mapMo g as with
      | none => rw [hmas] at hl; simp at hl
      | some bs =>
        rw [hmas] at hl
        simp at hl
        subst hl
        rw [mapMo, mapMo, hcomp a b hga, ih hmas]

theorem Tensor.tdivList_eq_map (q : ℚ) :
    ∀ xs : List Tensor, Tensor.tdivList q xs = xs.map (Tensor.tdiv q)
  | [] => rfl
  | t :: ts => by rw [Tensor.tdivList, List.map_cons, Tensor.tdivList_eq_map q ts]

theorem Tensor.tdivList_get? (q : ℚ) (xs : List Tensor) (i : Nat) :
    (Tensor.tdivList q xs).get? i = (xs.get? i).map (Tensor.tdiv q) := by
  rw [Tensor.tdivList_eq_map, List.get?_eq_getElem?, List.getElem?_map,
    List.get?_eq_getElem?]

mutual

theorem Tensor.tdiv_tdiv (p q : ℚ) :
    ∀ t : Tensor, (t.tdiv p).tdiv q = t.tdiv (p * q)
  | .scalar x => by simp [Tensor.tdiv, div_div]
  | .arr xs => by
    simp only [Tensor.tdiv]
    rw [Tensor.tdivList_tdivList p q xs]

theorem Tensor.tdivList_tdivList (p q : ℚ) :
    ∀ xs : List Tensor,
      Tensor.tdivList q (Tensor.tdivList p xs) = Tensor.tdivList (p * q) xs
  | [] => rfl
  | t :: ts => by
    simp only [Tensor.tdivList]
    rw [Tensor.tdiv_tdiv p q t, Tensor.tdivList_tdivList p q ts]

end

theorem Tensor.entry_tdiv (q : ℚ) :
    ∀ (l : List Nat) (t : Tensor) (x : ℚ),
      Tensor.entry t l = some x → Tensor.entry (Tensor.tdiv q t) l = some (x / q)
  | [], t, x => by
    cases t with
    | scalar y =>
      intro h
      rw [Tensor.entry] at h
      injection h with h
      subst h
      simp [Tensor.tdiv, Tensor.entry]
    | arr xs => intro h; simp [Tensor.entry] at h
  | i :: is, t, x => by
    cases t with
    | scalar y => intro h; simp [Tensor.entry] at h
    | arr xs =>
      intro h
      rw [Tensor.entry] at h
      cases hu : xs.get? i with
      | none => rw [hu] at h; exact absurd h (by simp)
      | some u =>
        rw [hu] at h
        have : Tensor.entry (Tensor.tdiv q u) is = some (x / q) :=
          Tensor.entry_tdiv q is u x h
        simp only [Tensor.tdiv, Tensor.entry]
        rw [Tensor.tdivList_get? q xs i, hu]
        simpa using this

theorem Tensor.divRow_comp (i : Nat) (p q : ℚ) :
    ∀ t t1, Tensor.divRow i p t = some t1 →
      Tensor.divRow i q t1 = Tensor.divRow i (p * q) t := by
  intro t t1 h
  cases t with
  | scalar x => rw [Tensor.divRow] at h; exact absurd h (by simp)
  | arr zs =>
    rw [Tensor.divRow] at h
    cases hz : zs.get? i with
    | none => rw [hz] at h; exact absurd h (by simp)
    | some z =>
      rw [hz] at h
      injection h with h
      subst h
      have hi : i < zs.length := (List.get?_eq_some.mp hz).1
      rw [Tensor.divRow, Tensor.divRow, hz,
        List.get?_set_eq_of_lt _ (by simpa using hi)]
      simp [List.set_set, Tensor.tdiv_tdiv p q z]

theorem Tensor.divChannel_comp (i : Nat) (p q : ℚ) :
    ∀ f f1, Tensor.divChannel i p f = some f1 →
      Tensor.divChannel i q f1 = Tensor.divChannel i (p * q) f := by
  intro f f1 h
  cases f with
  | scalar x => rw [Tensor.divChannel] at h; exact absurd h (by simp)
  | arr xs =>
    rw [Tensor.divChannel] at h
    cases hm : mapMo (Tensor.divRow i p) xs with
    | none => rw [hm] at h; exact absurd h (by simp)
    | some ys =>
      rw [hm] at h
      simp at h
      subst h
      rw [Tensor.divChannel, Tensor.divChannel,
        mapMo_comp (Tensor.divRow_comp i p q) hm]

/-- Unfolding of `Tensor.entry` at an array and a nonempty index list. -/
theorem Tensor.entry_arr_cons (xs : List Tensor) (i : Nat) (is : List Nat) :
    Tensor.entry (Tensor.arr xs) (i :: is) =
      match xs.get? i with
      | some t => Tensor.entry t is
      | none => none := rfl

theorem Tensor.entry_arr_cons_some {xs : List Tensor} {i : Nat} {is : List Nat}
    {t : Tensor} (h : xs.get? i = some t) :
    Tensor.entry (Tensor.arr xs) (i :: is) = Tensor.entry t is := by
  rw [Tensor.entry_arr_cons, h]

/-- The in-place channel division changes the entries of the selected
channel exactly by the division. -/
theorem Tensor.divChannel_entry (i : Nat) (q : ℚ) :
    ∀ f f1 r c x, Tensor.divChannel i q f = some f1 →
      Tensor.entry f [r, i, c] = some x →
      Tensor.entry f1 [r, i, c] = some (x / q) := by
  intro f f1 r c x hdiv hentry
  cases f with
  | scalar y => simp [Tensor.divChannel] at hdiv
  | arr xs =>
    rw [Tensor.divChannel] at hdiv
    cases hm : mapMo (Tensor.divRow i q) xs with
    | none => rw [hm] at hdiv; simp at hdiv
    | some ys =>
      rw [hm] at hdiv
      simp at hdiv
      subst hdiv
      cases hrow : xs.get? r with
      | none => rw [Tensor.entry_arr_cons, hrow] at hentry; simp at hentry
      | some row =>
        rw [Tensor.entry_arr_cons_some hrow] at hentry
        obtain ⟨row1, hrow1, hdivrow⟩ := mapMo_get? hm hrow
        cases row with
        | scalar y => simp [Tensor.divRow] at hdivrow
        | arr zs =>
          rw [Tensor.divRow] at hdivrow
          cases hz : zs.get? i with
          | none => rw [hz] at hdivrow; simp at hdivrow
          | some z =>
            rw [hz] at hdivrow
            injection hdivrow with hdivrow
            subst hdivrow
            rw [Tensor.entry_arr_cons_some hz] at hentry
            have hi : i < zs.length := (List.get?_eq_some.mp hz).1
            rw [Tensor.entry_arr_cons_some hrow1,
              Tensor.entry_arr_cons_some
                (List.get?_set_eq_of_lt _ (by simpa using hi))]
            exact Tensor.entry_tdiv q [c] z x hentry

/-- Division by nine moves every nonzero rational. -/
theorem div_nine_ne_self {x : ℚ} (hx : x ≠ 0) : x / 9 ≠ x := by
  intro h
  rw [div_eq_iff (by norm_num : (9 : ℚ) ≠ 0)] at h
  apply hx
  linarith

theorem Tensor.hasRank_unique : ∀ (t : Tensor) (m n : Nat),
    Tensor.hasRank t m = true → Tensor.hasRank t n = true → m = n
  | .scalar _, 0, 0, _, _ => rfl
  | .scalar _, 0, _ + 1, _, hn => by simp [Tensor.hasRank] at hn
  | .scalar _, _ + 1, _, hm, _ => by simp [Tensor.hasRank] at hm
  | .arr _, 0, _, hm, _ => by simp [Tensor.hasRank] at hm
  | .arr _, _ + 1, 0, _, hn => by simp [Tensor.hasRank] at hn
  | .arr [], _ + 1, _ + 1, hm, _ => by simp [Tensor.hasRank] at hm
  | .arr (t :: ts), m + 1, n + 1, hm, hn => by
    rw [Tensor.hasRank, Bool.and_eq_true] at hm hn
    have hm2 := hm.2
    have hn2 := hn.2
    rw [Tensor.hasRankList, Bool.and_eq_true] at hm2 hn2
    have := Tensor.hasRank_unique t m n hm2.1 hn2.1
    omega

theorem Tensor.getMid0_rank : ∀ t w n, Tensor.getMid0 t = some w →
    Tensor.hasRank t n = true → 2 ≤ n ∧ Tensor.hasRank w (n - 1) = true := by
  intro t w n hg hr
  cases t with
  | scalar x => simp [Tensor.getMid0] at hg
  | arr xs =>
    cases xs with
    | nil => simp [Tensor.getMid0] at hg
    | cons t0 ts =>
      cases t0 with
      | scalar y => simp [Tensor.getMid0] at hg
      | arr ws =>
        rw [Tensor.getMid0] at hg
        injection hg with hg
        subst hg
        cases n with
        | zero => simp [Tensor.hasRank] at hr
        | succ n' =>
          rw [Tensor.hasRank, Bool.and_eq_true] at hr
          have h0 := hr.2
          rw [Tensor.hasRankList, Bool.and_eq_true] at h0
          cases n' with
          | zero => simp [Tensor.hasRank] at h0
          | succ n'' => exact ⟨by omega, by simpa using h0.1⟩

theorem Tensor.mapMo_getMid0_rank : ∀ (xs ys : List Tensor) (n : Nat),
    mapMo Tensor.getMid0 xs = some ys → Tensor.hasRankList xs n = true →
    Tensor.hasRankList ys (n - 1) = true := by
  intro xs
  induction xs with
  | nil =>
    intro ys n h _
    simp [mapMo] at h
    subst h
    simp [Tensor.hasRankList]
  | cons t ts ih =>
    intro ys n h hr
    rw [mapMo] at h
    cases hg : Tensor.getMid0 t with
    | none => rw [hg] at h; simp at h
    | some w =>
      rw [hg] at h
      cases hm : mapMo Tensor.getMid0 ts with
      | none => rw [hm] at h; simp at h
      | some ws' =>
        rw [hm] at h
        simp at h
        subst h
        rw [Tensor.hasRankList, Bool.and_eq_true] at hr
        rw [Tensor.hasRankList, Bool.and_eq_true]
        exact ⟨(Tensor.getMid0_rank t w n hg hr.1).2, ih ws' n hm hr.2⟩

/-- The slice `t[:, 0, :]` needs rank at least 3 and produces a tensor of
rank one less. -/
theorem Tensor.sliceMid0_rank : ∀ x x1 r, Tensor.sliceMid0 x = some x1 →
    Tensor.hasRank x r = true → 3 ≤ r ∧ Tensor.hasRank x1 (r - 1) = true := by
  intro x x1 r hs hr
  cases x with
  | scalar y => simp [Tensor.sliceMid0] at hs
  | arr xs =>
    rw [Tensor.sliceMid0] at hs
    cases hm : mapMo Tensor.getMid0 xs with
    | none => rw [hm] at hs; simp at hs
    | some ys =>
      rw [hm] at hs
      simp at hs
      subst hs
      cases r with
      | zero => simp [Tensor.hasRank] at hr
      | succ r' =>
        rw [Tensor.hasRank, Bool.and_eq_true] at hr
        obtain ⟨hne, hlist⟩ := hr
        cases xs with
        | nil => simp at hne
        | cons t ts =>
          rw [Tensor.hasRankList, Bool.and_eq_true] at hlist
          obtain ⟨w, hw⟩ : ∃ w, Tensor.getMid0 t = some w := by
            obtain ⟨b, _, hb⟩ := mapMo_get? hm (by simp : (t :: ts).get? 0 = some t)
            exact ⟨b, hb⟩
          have h2 := Tensor.getMid0_rank t w r' hw hlist.1
          have hys : Tensor.hasRankList ys (r' - 1) = true :=
            Tensor.mapMo_getMid0_rank (t :: ts) ys r' hm
              (by rw [Tensor.hasRankList, Bool.and_eq_true]; exact hlist)
          refine ⟨by omega, ?_⟩
          have hlen : ys.length = (t :: ts).length := mapMo_length hm
          obtain ⟨r'', hr''⟩ : ∃ r'', r' = r'' + 1 := ⟨r' - 1, by omega⟩
          subst hr''
          simp only [Nat.add_sub_cancel]
          rw [Tensor.hasRank, Bool.and_eq_true]
          constructor
          · cases ys with
            | nil => simp at hlen
            | cons _ _ => simp
          · simpa using hys

theorem nbodyGBlockAux_length (mh mo : Channels) (e : Int) (s : String)
    (sLN sR : Bool) : ∀ (k : Nat) (m_in : Channels) (iLN rec : Bool),
    (nbodyGBlockAux mh mo e s sLN sR k m_in iLN rec).length = 2 * k + 1
  | 0, _, _, _ => rfl
  | k + 1, m_in, iLN, rec => by
    rw [nbodyGBlockAux]
    simp only [List.length_cons, nbodyGBlockAux_length mh mo e s sLN sR k]
    omega

theorem nbodyGBlockAux_shape (mh mo : Channels) (e : Int) (s : String)
    (sLN sR : Bool) : ∀ (k : Nat) (m_in : Channels) (iLN rec : Bool),
    nbodyShape (nbodyGBlockAux mh mo e s sLN sR k m_in iLN rec) = true
  | 0, _, _, _ => rfl
  | k + 1, m_in, iLN, rec => by
    rw [nbodyGBlockAux]
    have hlen := nbodyGBlockAux_length mh mo e s sLN sR k mh sLN sR
    cases haux : nbodyGBlockAux mh mo e s sLN sR k mh sLN sR with
    | nil => rw [haux] at hlen; simp at hlen
    | cons c t =>
      rw [nbodyShape]
      have := nbodyGBlockAux_shape mh mo e s sLN sR k mh sLN sR
      rw [haux] at this
      simp [isAttenRes, isNormBias, this]

theorem nbodyGBlockAux_getLast (mh mo : Channels) (e : Int) (s : String)
    (sLN sR : Bool) : ∀ (k : Nat) (m_in : Channels) (iLN rec : Bool),
    ∃ last, (nbodyGBlockAux mh mo e s sLN sR k m_in iLN rec).getLast? = some last ∧
      isAttenRes last = true
  | 0, m_in, iLN, _ =>
    ⟨.SO3EquivariantAttenRes m_in mo mo mo e 1 false (some 0) s iLN
      query_mlp key_mlp value_mlp skip_mlp, rfl, rfl⟩
  | k + 1, m_in, iLN, rec => by
    obtain ⟨last, hl, ha⟩ := nbodyGBlockAux_getLast mh mo e s sLN sR k mh sLN sR
    refine ⟨last, ?_, ha⟩
    rw [nbodyGBlockAux, List.getLast?_cons_cons]
    have hlen := nbodyGBlockAux_length mh mo e s sLN sR k mh sLN sR
    cases haux : nbodyGBlockAux mh mo e s sLN sR k mh sLN sR with
    | nil => rw [haux] at hlen; simp at hlen
    | cons c t =>
      rw [List.getLast?_cons_cons]
      rw [haux] at hl
      exact hl

theorem nbodyGBlockAux_all (mh mo : Channels) (e : Int) (s : String)
    (sLN sR : Bool) : ∀ (k : Nat) (m_in : Channels) (iLN rec : Bool),
    (nbodyGBlockAux mh mo e s sLN sR k m_in iLN rec).all
      (fun m => isAttenRes m || isNormBias m) = true
  | 0, _, _, _ => rfl
  | k + 1, m_in, iLN, rec => by
    rw [nbodyGBlockAux, List.all_cons, List.all_cons,
      nbodyGBlockAux_all mh mo e s sLN sR k mh sLN sR]
    rfl

theorem qm9GBlockAux_length (mh mqk mv : Channels) (e h : Int) (r : Bool)
    (s : String) (iLN : Bool) :
    ∀ k : Nat, (qm9GBlockAux mh mqk mv e h r s iLN k).length = 2 * k
  | 0 => rfl
  | k + 1 => by
    rw [qm9GBlockAux]
    simp only [List.length_cons, qm9GBlockAux_length mh mqk mv e h r s iLN k]
    omega

theorem qm9GBlockAux_pairShape (mh mqk mv : Channels) (e h : Int) (r : Bool)
    (s : String) (iLN : Bool) :
    ∀ k : Nat, pairShape (qm9GBlockAux mh mqk mv e h r s iLN k) = true
  | 0 => rfl
  | k + 1 => by
    rw [qm9GBlockAux, pairShape]
    simp [isAttenRes, isNormBias, qm9GBlockAux_pairShape mh mqk mv e h r s iLN k]

theorem qm9GBlockAux_all (mh mqk mv : Channels) (e h : Int) (r : Bool)
    (s : String) (iLN : Bool) :
    ∀ k : Nat, (qm9GBlockAux mh mqk mv e h r s iLN k).all
      (fun m => isAttenRes m || isNormBias m || isLayerNorm m) = true
  | 0 => rfl
  | k + 1 => by
    rw [qm9GBlockAux, List.all_cons, List.all_cons,
      qm9GBlockAux_all mh mqk mv e h r s iLN k]
    rfl

/-- Inversion of a successful `QM9Model.__init__`: the pooling string was
valid, the divisor nonzero, and the built attributes are as `_build_net`
assigns them. -/
theorem qm9_init_ok_parts {nl h d hd : Int} {p : String} {M : QM9Model}
    (hok : QM9Model.init nl p h d hd = Except.ok M) :
    p ∈ poolingTypes ∧ d ≠ 0 ∧
    M.pooling_layer = selectPooling p ∧
    M.GBlock = .SO3LayerNorm { vec := 0, scalar := hd } ::
      qm9GBlockAux { vec := 0, scalar := hd }
        { vec := 0, scalar := Int.fdiv hd d } { vec := 0, scalar := Int.fdiv hd d }
        5 h true "gate" false nl.toNat ∧
    M.graph_mapping.out_dim = 1 := by
  simp only [QM9Model.init] at hok
  by_cases hp : p ∈ poolingTypes
  · rw [if_pos hp] at hok
    by_cases hd0 : d = 0
    · rw [if_pos hd0] at hok
      exact absurd hok (by simp)
    · rw [if_neg hd0] at hok
      simp only [Except.ok.injEq] at hok
      subst hok
      exact ⟨hp, hd0, rfl, rfl, rfl⟩
  · rw [if_neg hp] at hok
    exact absurd hok (by simp)

theorem runGBlock_singleton (I : Interp) (G : Graph) (l : SMPModule)
    (f : Features) : runGBlock I G [l] f = I.layer l f G := rfl

theorem runGBlock_append (I : Interp) (G : Graph) (b1 b2 : List SMPModule)
    (f : Features) :
    runGBlock I G (b1 ++ b2) f = runGBlock I G b2 (runGBlock I G b1 f) :=
  List.foldl_append _ _ b1 b2

theorem runGBlock_take_succ (I : Interp) (G : Graph) {block : List SMPModule}
    {i : Nat} {m : SMPModule} (h : block.get? i = some m) (f : Features) :
    runGBlock I G (block.take (i + 1)) f =
      I.layer m (runGBlock I G (block.take i) f) G := by
  have hsplit : block.take (i + 1) = block.take i ++ [m] := by
    rw [List.take_succ, ← List.get?_eq_getElem?, h]
    rfl
  rw [hsplit, runGBlock_append, runGBlock_singleton]

/-- Inversion of a successful `NBodyModel.forward` call: the data it read,
the slice it wrote, and the shape of its result. -/
theorem nbody_forward_inv {I : Interp} {M : NBodyModel} {G : Graph}
    {out : Tensor} {G' : Graph}
    (h : NBodyModel.forward I M G = some (out, G')) :
    ∃ v x x1, lookupF G.ndata "v" = some v ∧ lookupF G.ndata "x" = some x ∧
      Tensor.sliceMid0 x = some x1 ∧
      G' = { ndata := updateF G.ndata "x" x1 } ∧
      lookupF (runGBlock I G' M.GBlock [("vec", v)]) "vec" = some out := by
  simp only [NBodyModel.forward, Option.bind_eq_bind, Option.bind_eq_some] at h
  obtain ⟨v, hv, x, hx, x1, hx1, out1, hout, heq⟩ := h
  simp only [Option.some.injEq, Prod.mk.injEq] at heq
  obtain ⟨h1, h2⟩ := heq
  subst h1
  subst h2
  exact ⟨v, x, x1, hv, hx, hx1, rfl, hout⟩

/-- Inversion of a successful `QM9Model.forward` call: the data it read,
the in-place division it performed, and the shape of its result. -/
theorem qm9_forward_inv {I : Interp} {M : QM9Model} {G : Graph}
    {out : Tensor} {G' : Graph}
    (h : QM9Model.forward I M G = some (out, G')) :
    ∃ f f1 features1 s summed idx pl,
      lookupF G.ndata "f" = some f ∧
      Tensor.divChannel 5 9 f = some f1 ∧
      G' = { ndata := updateF G.ndata "f" f1 } ∧
      lookupF (I.vector M.node_mapping
        (runGBlock I G' M.GBlock (I.vector M.embedding [("scalar", f1)])))
        "scalar" = some features1 ∧
      lookupF (runGBlock I G' M.GBlock (I.vector M.embedding [("scalar", f1)]))
        "scalar" = some s ∧
      Tensor.tadd features1 (I.drop M.res_drop s) = some summed ∧
      Tensor.lastIdx0 summed = some idx ∧
      M.pooling_layer = some pl ∧
      out = I.mlp M.graph_mapping (I.pool pl G' idx) := by
  simp only [QM9Model.forward, Option.bind_eq_bind, Option.bind_eq_some] at h
  obtain ⟨f, hf, f1, hf1, features1, hfeat, s, hs, summed, hsum, idx, hidx,
    pl, hpl, heq⟩ := h
  simp only [Option.some.injEq, Prod.mk.injEq] at heq
  obtain ⟨h1, h2⟩ := heq
  subst h2
  exact ⟨f, f1, features1, s, summed, idx, pl, hf, hf1, rfl, hfeat, hs,
    hsum, hidx, hpl, h1.symm⟩

/-- C1: `QM9Model.__init__` raises an assertion error if and only if its
`pooling` argument is not one of `'max'`, `'avg'`, `'sum'`; for every
`num_layers` and every pooling value in that set (the remaining arguments
at their Python defaults `heads=1`, `div=1`, `hidden_dim=128`), the
assertion succeeds and construction proceeds to build the network. -/
theorem qm9_init_assertion_iff (num_layers : Int) (pooling : String) :
    ((∃ msg, QM9Model.init num_layers pooling 1 1 128 =
        Except.error (PyError.assertionError msg)) ↔ pooling ∉ poolingTypes) ∧
    (pooling ∈ poolingTypes →
      ∃ M, QM9Model.init num_layers pooling 1 1 128 = Except.ok M) := by
  have hdiv : ¬((1 : Int) = 0) := by norm_num
  constructor
  · constructor
    · rintro ⟨msg, hmsg⟩ hp
      simp only [QM9Model.init, if_pos hp, if_neg hdiv] at hmsg
      exact Except.noConfusion hmsg
    · intro hp
      exact ⟨"Unresolved pooling type " ++ pooling,
        by simp only [QM9Model.init, if_neg hp]⟩
  · intro hp
    cases hini : QM9Model.init num_layers pooling 1 1 128 with
    | ok M => exact ⟨M, rfl⟩
    | error e =>
      simp only [QM9Model.init, if_pos hp, if_neg hdiv] at hini
      exact Except.noConfusion hini

theorem qm9_init_assertion_iff_witness :
    ("avg" ∈ poolingTypes) ∧
    (∃ M, QM9Model.init 2 "avg" 1 1 128 = Except.ok M) :=
  ⟨by decide, (qm9_init_assertion_iff 2 "avg").2 (by decide)⟩

/-- C10: `QM9Model.__repr__` raises an `AttributeError` for every instance
of the class: it reads `self.attention_channels` (and later
`self.net_hidden_dim`), which no method of `QM9Model` ever assigns, and
the first such read already raises. -/
theorem qm9_repr_raises (M : QM9Model) :
    QM9Model.reprFn M =
      Except.error (PyError.attributeError "attention_channels") := rfl

/-- C6: the pooling-type assertion is the only deliberate error handling:
`NBodyModel.__init__` performs no validation and completes without raising
for every integer `num_layers >= 0` and every integer
`num_hidden_channels`; and whenever `QM9Model.__init__` raises with a
nonzero divisor, the error is the pooling assertion, on a pooling string
outside the allowed set. -/
theorem models_error_handling (n h nl hds d hd : Int) (p : String) :
    (0 ≤ n → ∃ M, NBodyModel.initE n h = Except.ok M) ∧
    (d ≠ 0 → ∀ e, QM9Model.init nl p hds d hd = Except.error e →
      (∃ msg, e = PyError.assertionError msg) ∧ p ∉ poolingTypes) := by
  constructor
  · intro _
    exact ⟨_, rfl⟩
  · intro hd0 e he
    by_cases hp : p ∈ poolingTypes
    · simp only [QM9Model.init, if_pos hp, if_neg hd0] at he
      exact Except.noConfusion he
    · simp only [QM9Model.init, if_neg hp, Except.error.injEq] at he
      exact ⟨⟨_, he.symm⟩, hp⟩

theorem models_error_handling_witness :
    (∃ M, NBodyModel.initE 3 3 = Except.ok M) ∧
    ((∃ msg, PyError.assertionError "Unresolved pooling type mean" =
        PyError.assertionError msg) ∧ "mean" ∉ poolingTypes) :=
  ⟨(models_error_handling 3 3 1 1 1 128 "mean").1 (by decide),
   (models_error_handling 3 3 1 1 1 128 "mean").2 (by decide)
     (PyError.assertionError "Unresolved pooling type mean") rfl⟩

/-- C7: both models assemble only the named external modules.  For every
`num_layers n >= 0`, `NBodyModel`'s `GBlock` holds exactly `2n+1` modules,
alternating `SO3EquivariantAttenRes` and `NormBias` and ending with an
`SO3EquivariantAttenRes`; `QM9Model`'s `GBlock` holds exactly `2n+1`
modules, an `SO3LayerNorm` followed by `n` pairs of
`SO3EquivariantAttenRes` and `NormBias`; and every module in either
`GBlock` is one of the three kinds. -/
theorem gblock_structure (n h nl hds d hd : Int) (p : String) (Q : QM9Model) :
    0 ≤ n →
    ((NBodyModel.init n h).GBlock.length = 2 * n.toNat + 1 ∧
     nbodyShape (NBodyModel.init n h).GBlock = true ∧
     (∃ last, (NBodyModel.init n h).GBlock.getLast? = some last ∧
       isAttenRes last = true) ∧
     (NBodyModel.init n h).GBlock.all
       (fun m => isAttenRes m || isNormBias m) = true) ∧
    (0 ≤ nl → QM9Model.init nl p hds d hd = Except.ok Q →
      Q.GBlock.length = 2 * nl.toNat + 1 ∧
      (∃ first rest, Q.GBlock = first :: rest ∧ isLayerNorm first = true ∧
        pairShape rest = true ∧ rest.length = 2 * nl.toNat) ∧
      Q.GBlock.all
        (fun m => isAttenRes m || isNormBias m || isLayerNorm m) = true) := by
  intro _
  constructor
  · have hG : (NBodyModel.init n h).GBlock = nbodyGBlockAux
        { vec := h, scalar := h } { vec := 2, scalar := 0 } 1 "cat" false true
        n.toNat { vec := 1, scalar := 0 } false false := rfl
    rw [hG]
    exact ⟨nbodyGBlockAux_length _ _ _ _ _ _ _ _ _ _,
      nbodyGBlockAux_shape _ _ _ _ _ _ _ _ _ _,
      nbodyGBlockAux_getLast _ _ _ _ _ _ _ _ _ _,
      nbodyGBlockAux_all _ _ _ _ _ _ _ _ _ _⟩
  · intro _ hok
    obtain ⟨-, -, -, hGB, -⟩ := qm9_init_ok_parts hok
    rw [hGB]
    refine ⟨?_, ⟨_, _, rfl, rfl,
      qm9GBlockAux_pairShape _ _ _ _ _ _ _ _ _,
      qm9GBlockAux_length _ _ _ _ _ _ _ _ _⟩, ?_⟩
    · rw [List.length_cons, qm9GBlockAux_length _ _ _ _ _ _ _ _ _]
    · rw [List.all_cons, qm9GBlockAux_all _ _ _ _ _ _ _ _ _]
      rfl

theorem gblock_structure_witness :
    ((0 : Int) ≤ 2 ∧ (NBodyModel.init 2 3).GBlock.length = 2 * (2 : Int).toNat + 1) ∧
    ((0 : Int) ≤ 0 ∧ qm9Sample.GBlock.length = 2 * (0 : Int).toNat + 1) :=
  ⟨⟨by decide, (gblock_structure 2 3 0 1 1 128 "max" qm9Sample (by decide)).1.1⟩,
   ⟨by decide,
    ((gblock_structure 2 3 0 1 1 128 "max" qm9Sample (by decide)).2
      (by decide) rfl).1⟩⟩

/-- C2: the `pooling` argument selects the graph-level reduction exactly
as named (`'max'` installs `MaxPooling`, `'avg'` installs `AvgPooling`,
`'sum'` installs `SumPooling`), and every successful forward pass applies
the installed pooling layer (followed only by `graph_mapping`) to produce
its output. -/
theorem qm9_pooling_selection :
    (∀ nl hds d hd (M : QM9Model),
      QM9Model.init nl "max" hds d hd = Except.ok M →
        M.pooling_layer = some PoolingLayer.MaxPooling) ∧
    (∀ nl hds d hd (M : QM9Model),
      QM9Model.init nl "avg" hds d hd = Except.ok M →
        M.pooling_layer = some PoolingLayer.AvgPooling) ∧
    (∀ nl hds d hd (M : QM9Model),
      QM9Model.init nl "sum" hds d hd = Except.ok M →
        M.pooling_layer = some PoolingLayer.SumPooling) ∧
    (∀ I M G out G', QM9Model.forward I M G = some (out, G') →
      ∃ pl idx, M.pooling_layer = some pl ∧
        out = I.mlp M.graph_mapping (I.pool pl G' idx)) := by
  refine ⟨?_, ?_, ?_, ?_⟩
  · intro nl hds d hd M hok
    rw [(qm9_init_ok_parts hok).2.2.1]
    rfl
  · intro nl hds d hd M hok
    rw [(qm9_init_ok_parts hok).2.2.1]
    rfl
  · intro nl hds d hd M hok
    rw [(qm9_init_ok_parts hok).2.2.1]
    rfl
  · intro I M G out G' h
    obtain ⟨f, f1, features1, s, summed, idx, pl, -, -, -, -, -, -, -, hpl, hout⟩ :=
      qm9_forward_inv h
    exact ⟨pl, idx, hpl, hout⟩

theorem qm9_pooling_selection_witness :
    qm9Sample.pooling_layer = some PoolingLayer.MaxPooling ∧
    (∃ pl idx, qm9Sample.pooling_layer = some pl ∧
      qm9OutSample = idInterp.mlp qm9Sample.graph_mapping
        (idInterp.pool pl gSampleQ1 idx)) :=
  ⟨qm9_pooling_selection.1 0 1 1 128 qm9Sample rfl,
   qm9_pooling_selection.2.2.2 idInterp qm9Sample gSampleQ qm9OutSample gSampleQ1
     (by
      simp [QM9Model.forward, qm9Sample, QM9Model.init, poolingTypes, lookupF,
        updateF, gSampleQ, fSample, Tensor.divChannel, mapMo, Tensor.divRow,
        Tensor.tdiv, Tensor.tdivList, idInterp, runGBlock, qm9GBlockAux,
        selectPooling, Tensor.tadd, Tensor.taddList, Tensor.lastIdx0,
        Tensor.lastIdx0List, fSampleDiv, gSampleQ1, qm9OutSample, List.foldl]
      norm_num)⟩

/-- C3: for every input graph, the forward loop applies every module of
`GBlock` exactly once, in list order, threading the feature dictionary:
the loop is `runGBlock`; a singleton block applies its module once;
concatenated blocks compose sequentially (the output of the first part is
the input of the second); the features after `i+1` modules are module
`i` applied to the features after `i` modules, every module receiving the
same graph; and both forward methods produce their result features by
`runGBlock` over the whole `GBlock`, starting from the initial feature
dictionary. -/
theorem gblock_sequential (I : Interp) (G : Graph) (block : List SMPModule)
    (f0 : Features) :
    (∀ l, runGBlock I G [l] f0 = I.layer l f0 G) ∧
    (∀ b1 b2, runGBlock I G (b1 ++ b2) f0 =
      runGBlock I G b2 (runGBlock I G b1 f0)) ∧
    (∀ i m, block.get? i = some m →
      runGBlock I G (block.take (i + 1)) f0 =
        I.layer m (runGBlock I G (block.take i) f0) G) ∧
    runGBlock I G (block.take block.length) f0 = runGBlock I G block f0 ∧
    (∀ (M : NBodyModel) out G', NBodyModel.forward I M G = some (out, G') →
      ∃ v, lookupF G.ndata "v" = some v ∧
        lookupF (runGBlock I G' M.GBlock [("vec", v)]) "vec" = some out) ∧
    (∀ (M : QM9Model) out G', QM9Model.forward I M G = some (out, G') →
      ∃ f1 s, lookupF G'.ndata "f" = some f1 ∧
        lookupF (runGBlock I G' M.GBlock (I.vector M.embedding [("scalar", f1)]))
          "scalar" = some s) := by
  refine ⟨fun l => rfl, fun b1 b2 => runGBlock_append I G b1 b2 f0,
    fun i m h => runGBlock_take_succ I G h f0, by rw [List.take_length],
    ?_, ?_⟩
  · intro M out G' h
    obtain ⟨v, x, x1, hv, -, -, -, hout⟩ := nbody_forward_inv h
    exact ⟨v, hv, hout⟩
  · intro M out G' h
    obtain ⟨f, f1, features1, s, -, -, -, -, hdiv, hG', -, hs, -⟩ := qm9_forward_inv h
    subst hG'
    exact ⟨f1, s, lookupF_updateF_self _ _ _, hs⟩

theorem gblock_sequential_witness :
    runGBlock idInterp gSampleN ([attenSample, normSample].take (1 + 1))
      ([] : Features) =
      idInterp.layer normSample
        (runGBlock idInterp gSampleN ([attenSample, normSample].take 1)
          ([] : Features)) gSampleN ∧
    (∃ v, lookupF gSampleN.ndata "v" = some v ∧
      lookupF (runGBlock idInterp gSampleN1 nbodySample.GBlock [("vec", v)])
        "vec" = some vSample) :=
  ⟨(gblock_sequential idInterp gSampleN [attenSample, normSample]
      ([] : Features)).2.2.1 1 normSample rfl,
   (gblock_sequential idInterp gSampleN nbodySample.GBlock
      ([] : Features)).2.2.2.2.1 nbodySample vSample gSampleN1 rfl⟩

/-- C4: `NBodyModel.forward(G)` returns the per-node vector output: it
initializes the feature dictionary with the `'vec'` entry taken from
`G.ndata['v']`, runs the `GBlock` layers, and returns the final
dictionary's `'vec'` component (not a graph-level scalar: no pooling is
applied). -/
theorem nbody_forward_returns_vec (I : Interp) (M : NBodyModel) (G : Graph)
    (out : Tensor) (G' : Graph) :
    NBodyModel.forward I M G = some (out, G') →
    ∃ v x x1, lookupF G.ndata "v" = some v ∧ lookupF G.ndata "x" = some x ∧
      Tensor.sliceMid0 x = some x1 ∧
      G' = { ndata := updateF G.ndata "x" x1 } ∧
      lookupF (runGBlock I G' M.GBlock [("vec", v)]) "vec" = some out :=
  fun h => nbody_forward_inv h

theorem nbody_forward_returns_vec_witness :
    ∃ v x x1, lookupF gSampleN.ndata "v" = some v ∧
      lookupF gSampleN.ndata "x" = some x ∧
      Tensor.sliceMid0 x = some x1 ∧
      gSampleN1 = { ndata := updateF gSampleN.ndata "x" x1 } ∧
      lookupF (runGBlock idInterp gSampleN1 nbodySample.GBlock [("vec", v)])
        "vec" = some vSample :=
  nbody_forward_returns_vec idInterp nbodySample gSampleN vSample gSampleN1 rfl

/-- C5: `QM9Model.forward(G)` returns a single pooled scalar per graph:
the scalar features output by `node_mapping` are summed with the dropout
of the pre-mapping scalar features, the sum is indexed at channel 0
(`[..., 0]`) and pooled over nodes by the selected pooling layer, and the
result is passed through `graph_mapping`, an MLP built with `out_dim=1`. -/
theorem qm9_forward_pooled_scalar :
    (∀ nl p hds d hd (M : QM9Model),
      QM9Model.init nl p hds d hd = Except.ok M →
        M.graph_mapping.out_dim = 1) ∧
    (∀ I M G out G', QM9Model.forward I M G = some (out, G') →
      ∃ f f1 features1 s summed idx pl,
        lookupF G.ndata "f" = some f ∧
        Tensor.divChannel 5 9 f = some f1 ∧
        G' = { ndata := updateF G.ndata "f" f1 } ∧
        lookupF (I.vector M.node_mapping (runGBlock I G' M.GBlock
          (I.vector M.embedding [("scalar", f1)]))) "scalar" = some features1 ∧
        lookupF (runGBlock I G' M.GBlock (I.vector M.embedding [("scalar", f1)]))
          "scalar" = some s ∧
        Tensor.tadd features1 (I.drop M.res_drop s) = some summed ∧
        Tensor.lastIdx0 summed = some idx ∧
        M.pooling_layer = some pl ∧
        out = I.mlp M.graph_mapping (I.pool pl G' idx)) := by
  constructor
  · intro nl p hds d hd M hok
    exact (qm9_init_ok_parts hok).2.2.2.2
  · intro I M G out G' h
    exact qm9_forward_inv h

theorem qm9_forward_pooled_scalar_witness :
    qm9Sample.graph_mapping.out_dim = 1 ∧
    (∃ f f1 features1 s summed idx pl,
      lookupF gSampleQ.ndata "f" = some f ∧
      Tensor.divChannel 5 9 f = some f1 ∧
      gSampleQ1 = { ndata := updateF gSampleQ.ndata "f" f1 } ∧
      lookupF (idInterp.vector qm9Sample.node_mapping (runGBlock idInterp
        gSampleQ1 qm9Sample.GBlock (idInterp.vector qm9Sample.embedding
          [("scalar", f1)]))) "scalar" = some features1 ∧
      lookupF (runGBlock idInterp gSampleQ1 qm9Sample.GBlock
        (idInterp.vector qm9Sample.embedding [("scalar", f1)]))
        "scalar" = some s ∧
      Tensor.tadd features1 (idInterp.drop qm9Sample.res_drop s) = some summed ∧
      Tensor.lastIdx0 summed = some idx ∧
      qm9Sample.pooling_layer = some pl ∧
      qm9OutSample = idInterp.mlp qm9Sample.graph_mapping
        (idInterp.pool pl gSampleQ1 idx)) :=
  ⟨qm9_forward_pooled_scalar.1 0 "max" 1 1 128 qm9Sample rfl,
   qm9_forward_pooled_scalar.2 idInterp qm9Sample gSampleQ qm9OutSample gSampleQ1
     (by
      simp [QM9Model.forward, qm9Sample, QM9Model.init, poolingTypes, lookupF,
        updateF, gSampleQ, fSample, Tensor.divChannel, mapMo, Tensor.divRow,
        Tensor.tdiv, Tensor.tdivList, idInterp, runGBlock, qm9GBlockAux,
        selectPooling, Tensor.tadd, Tensor.taddList, Tensor.lastIdx0,
        Tensor.lastIdx0List, fSampleDiv, gSampleQ1, qm9OutSample, List.foldl]
      norm_num)⟩

/-- C8: `NBodyModel.forward` mutates its input graph: it overwrites
`G.ndata['x']` with the slice `G.ndata['x'][:, 0, :]`, reducing its rank
by one, and never restores it, so the input graph is changed (`x1 ≠ x`);
a second call of `forward` on the returned graph operates on the
already-sliced `'x'` data. -/
theorem nbody_forward_mutates_x (I : Interp) (M : NBodyModel) (G : Graph)
    (out : Tensor) (G' : Graph) (x : Tensor) (r : Nat) :
    NBodyModel.forward I M G = some (out, G') →
    lookupF G.ndata "x" = some x →
    Tensor.hasRank x r = true →
    ∃ x1, Tensor.sliceMid0 x = some x1 ∧
      lookupF G'.ndata "x" = some x1 ∧
      3 ≤ r ∧ Tensor.hasRank x1 (r - 1) = true ∧ x1 ≠ x ∧
      (∀ out2 G2, NBodyModel.forward I M G' = some (out2, G2) →
        ∃ x2, Tensor.sliceMid0 x1 = some x2 ∧
          lookupF G2.ndata "x" = some x2) := by
  intro h hx hr
  obtain ⟨v, x', x1, hv, hx', hx1, hG', hout⟩ := nbody_forward_inv h
  rw [hx] at hx'
  injection hx' with hx'
  subst hx'
  subst hG'
  obtain ⟨h3, hrank⟩ := Tensor.sliceMid0_rank x x1 r hx1 hr
  refine ⟨x1, hx1, lookupF_updateF_self _ _ _, h3, hrank, ?_, ?_⟩
  · intro heq
    rw [heq] at hrank
    have := Tensor.hasRank_unique x (r - 1) r hrank hr
    omega
  · intro out2 G2 h2
    obtain ⟨v2, xx, x2, hv2, hxx, hx2, hG2, hout2⟩ := nbody_forward_inv h2
    rw [lookupF_updateF_self] at hxx
    injection hxx with hxx
    subst hxx
    subst hG2
    exact ⟨x2, hx2, lookupF_updateF_self _ _ _⟩

theorem nbody_forward_mutates_x_witness :
    ∃ x1, Tensor.sliceMid0 xSample = some x1 ∧
      lookupF gSampleN1.ndata "x" = some x1 ∧
      3 ≤ 3 ∧ Tensor.hasRank x1 (3 - 1) = true ∧ x1 ≠ xSample ∧
      (∀ out2 G2, NBodyModel.forward idInterp nbodySample gSampleN1 =
          some (out2, G2) →
        ∃ x2, Tensor.sliceMid0 x1 = some x2 ∧
          lookupF G2.ndata "x" = some x2) :=
  nbody_forward_mutates_x idInterp nbodySample gSampleN vSample gSampleN1
    xSample 3 rfl rfl
    (by simp [Tensor.hasRank, Tensor.hasRankList, xSample])

/-- C9: `QM9Model.forward` mutates its input graph's node data in place:
`features['scalar']` aliases `G.ndata['f']`, and the slice assignment
divides channel 5 of `G.ndata['f']` by 9 on every call, so the graph is
changed whenever that channel holds a nonzero entry, and calling forward
twice on the same graph object divides the channel by 81 rather than 9. -/
theorem qm9_forward_mutates_f (I : Interp) (M : QM9Model) (G : Graph)
    (out : Tensor) (G' : Graph) (f : Tensor) :
    QM9Model.forward I M G = some (out, G') →
    lookupF G.ndata "f" = some f →
    ∃ f1, Tensor.divChannel 5 9 f = some f1 ∧
      lookupF G'.ndata "f" = some f1 ∧
      (∀ r c x, Tensor.entry f [r, 5, c] = some x → x ≠ 0 → f1 ≠ f) ∧
      (∀ out2 G2, QM9Model.forward I M G' = some (out2, G2) →
        lookupF G2.ndata "f" = Tensor.divChannel 5 81 f) := by
  intro h hf
  obtain ⟨f', f1, features1, s, summed, idx, pl, hf', hdiv, hG', -, -, -, -, -, -⟩ :=
    qm9_forward_inv h
  rw [hf] at hf'
  injection hf' with hf'
  subst hf'
  subst hG'
  refine ⟨f1, hdiv, lookupF_updateF_self _ _ _, ?_, ?_⟩
  · intro r c x hent hx0 heq
    have hdent := Tensor.divChannel_entry 5 9 f f1 r c x hdiv hent
    rw [heq, hent] at hdent
    injection hdent with hdent
    exact div_nine_ne_self hx0 hdent.symm
  · intro out2 G2 h2
    obtain ⟨f2, f3, features2, s2, summed2, idx2, pl2, hf2, hdiv2, hG2, -, -, -, -, -, -⟩ :=
      qm9_forward_inv h2
    rw [lookupF_updateF_self] at hf2
    injection hf2 with hf2
    subst hf2
    subst hG2
    rw [lookupF_updateF_self]
    have hcomp := Tensor.divChannel_comp 5 9 9 f f1 hdiv
    rw [show ((9 : ℚ) * 9) = 81 by norm_num] at hcomp
    rw [← hcomp]
    exact hdiv2.symm

theorem qm9_forward_mutates_f_witness :
    ∃ f1, Tensor.divChannel 5 9 fSample = some f1 ∧
      lookupF gSampleQ1.ndata "f" = some f1 ∧
      (∀ r c x, Tensor.entry fSample [r, 5, c] = some x → x ≠ 0 → f1 ≠ fSample) ∧
      (∀ out2 G2, QM9Model.forward idInterp qm9Sample gSampleQ1 =
          some (out2, G2) →
        lookupF G2.ndata "f" = Tensor.divChannel 5 81 fSample) :=
  qm9_forward_mutates_f idInterp qm9Sample gSampleQ qm9OutSample gSampleQ1
    fSample
    (by
      simp [QM9Model.forward, qm9Sample, QM9Model.init, poolingTypes, lookupF,
        updateF, gSampleQ, fSample, Tensor.divChannel, mapMo, Tensor.divRow,
        Tensor.tdiv, Tensor.tdivList, idInterp, runGBlock, qm9GBlockAux,
        selectPooling, Tensor.tadd, Tensor.taddList, Tensor.lastIdx0,
        Tensor.lastIdx0List, fSampleDiv, gSampleQ1, qm9OutSample, List.foldl]
      norm_num)
    rfl
